import Mathlib

/-!
Shallow embedding of `activities.py` (the standards-positions entry tool).

Python strings are modelled as Lean `String` / `List Char`; Python library
calls used by the program (`urllib.parse.urlsplit`, `str.lower`, `str.strip`,
`str.split`, `str.rsplit`, `str.replace`) are modelled on ASCII text, which is
the domain the program operates on.  Fallible Python code (statements that can
raise `IndexError`, `KeyError`, `AttributeError`, `ValueError`, or the
program's own `BetterUrl` / `FetchError` exceptions, or that call
`sys.exit`) is modelled with `Option` / `Except`.
-/

deriving instance DecidableEq for Except

namespace Activities

/-- ASCII model of Python's `str.lower` on a single character. -/
def lowerChar (c : Char) : Char :=
  match c with
  | 'A' => 'a' | 'B' => 'b' | 'C' => 'c' | 'D' => 'd' | 'E' => 'e' | 'F' => 'f'
  | 'G' => 'g' | 'H' => 'h' | 'I' => 'i' | 'J' => 'j' | 'K' => 'k' | 'L' => 'l'
  | 'M' => 'm' | 'N' => 'n' | 'O' => 'o' | 'P' => 'p' | 'Q' => 'q' | 'R' => 'r'
  | 'S' => 's' | 'T' => 't' | 'U' => 'u' | 'V' => 'v' | 'W' => 'w' | 'X' => 'x'
  | 'Y' => 'y' | 'Z' => 'z'
  | c => c

/-- Python's `str.lower`. -/
def pyLower (s : String) : String := String.mk (s.data.map lowerChar)

/-- The ASCII whitespace characters stripped by Python's default `str.strip`. -/
def isPySpace (c : Char) : Bool :=
  c = ' ' || c = '\t' || c = '\n' || c = '\r' || c = '\x0b' || c = '\x0c'

/-- Python's `str.strip` (default whitespace stripping). -/
def pyStrip (s : String) : String :=
  String.mk (((s.data.dropWhile isPySpace).reverse.dropWhile isPySpace).reverse)

/-- Python's `str.startswith`. -/
def pyStartswith (s pre : String) : Bool := pre.data.isPrefixOf s.data

/-- Python's `content.replace("\n", " ")` as used by `IETFParser.get_meta`. -/
def replaceNL (s : String) : String :=
  String.mk (s.data.map (fun c => if c = '\n' then ' ' else c))

/-- Split a character list at the first occurrence of `c`
(the pieces before and after it); `none` when `c` does not occur. -/
def splitFirst (c : Char) : List Char → Option (List Char × List Char)
  | [] => none
  | x :: xs =>
    if x = c then some ([], xs)
    else (splitFirst c xs).map (fun pr => (x :: pr.1, pr.2))

/-- The characters `urllib.parse` accepts inside a URL scheme. -/
def schemeChar (c : Char) : Bool :=
  c.isAlpha || c.isDigit || c = '+' || c = '-' || c = '.'

/-- The scheme-splitting step of `urllib.parse.urlsplit`: the text before the
first colon becomes the (lowercased) scheme when it is a nonempty run of
scheme characters starting with a letter. -/
def splitScheme (url : List Char) : List Char × List Char :=
  match splitFirst ':' url with
  | none => ([], url)
  | some (pre, rest) =>
    if pre ≠ [] ∧ pre.all schemeChar = true ∧ (pre.headD ' ').isAlpha = true
    then (pre.map lowerChar, rest)
    else ([], url)

/-- A character that does not terminate the netloc part of a URL. -/
def notNetlocEnd (c : Char) : Bool := !(c = '/' || c = '?' || c = '#')

/-- The netloc-splitting step of `urlsplit`: after a leading `//`, the netloc
runs until the first `/`, `?` or `#`. -/
def splitNetloc (l : List Char) : List Char × List Char :=
  match l with
  | a :: b :: rest =>
    if a = '/' ∧ b = '/' then (rest.takeWhile notNetlocEnd, rest.dropWhile notNetlocEnd)
    else ([], l)
  | _ => ([], l)

/-- Split off the fragment at the first `#` (everything if absent). -/
def splitFrag (l : List Char) : List Char × List Char :=
  match splitFirst '#' l with
  | none => (l, [])
  | some (a, b) => (a, b)

/-- Split off the query at the first `?` (everything if absent). -/
def splitQuery (l : List Char) : List Char × List Char :=
  match splitFirst '?' l with
  | none => (l, [])
  | some (a, b) => (a, b)

/-- The five components returned by `urllib.parse.urlsplit`. -/
structure UrlParts where
  scheme : List Char
  netloc : List Char
  path : List Char
  query : List Char
  fragment : List Char
deriving DecidableEq

/-- Model of `urllib.parse.urlsplit` on character lists. -/
def urlsplitL (url : List Char) : UrlParts :=
  let sr := splitScheme url
  let nr := splitNetloc sr.2
  let fr := splitFrag nr.2
  let qr := splitQuery fr.1
  ⟨sr.1, nr.1, qr.1, qr.2, fr.2⟩

/-- `SpecParser.clean_url` on character lists:
`link = urlsplit(url); path = link.path;`
`if path[-1] == "/": path = path[:-1];`
`return "%s://%s%s" % (link.scheme, link.netloc.lower(), path)`.
The `path[-1]` indexing raises `IndexError` on an empty path, modelled by
`none`. -/
def cleanUrlL (url : List Char) : Option (List Char) :=
  let u := urlsplitL url
  match u.path.getLast? with
  | none => none
  | some c =>
    let path := if c = '/' then u.path.dropLast else u.path
    some (u.scheme ++ ':' :: '/' :: '/' :: (u.netloc.map lowerChar ++ path))

/-- `SpecParser.clean_url` on strings. -/
def clean_url (url : String) : Option String :=
  (cleanUrlL url.data).map String.mk

/-- A URL string assembled from scheme, netloc and path components. -/
def mkUrl (s n p : List Char) : List Char := s ++ ':' :: '/' :: '/' :: (n ++ p)

/-- One trailing-slash strip, as `clean_url` performs on the path. -/
def stripSlash (p : List Char) : List Char :=
  if p.getLast? = some '/' then p.dropLast else p

/-- Helper for `pySplit`: accumulates the current piece (reversed). -/
def splitAcc (c : Char) : List Char → List Char → List (List Char)
  | [], acc => [acc.reverse]
  | x :: xs, acc =>
    if x = c then acc.reverse :: splitAcc c xs [] else splitAcc c xs (x :: acc)

/-- Python's `str.split(sep)` for a one-character separator
(`"".split("/") == [""]`, `"/a".split("/") == ["", "a"]`). -/
def pySplit (c : Char) (l : List Char) : List (List Char) := splitAcc c l []

/-- Split a character list at the last occurrence of `c`;
`none` when `c` does not occur. -/
def splitLast (c : Char) (l : List Char) : Option (List Char × List Char) :=
  match splitFirst c l.reverse with
  | none => none
  | some (a, b) => some (b.reverse, a.reverse)

/-- Python's `str.rsplit(sep, 1)` for a one-character separator: a one-element
list when the separator is absent, otherwise the pieces around its last
occurrence. -/
def rsplit1 (c : Char) (l : List Char) : List (List Char) :=
  match splitLast c l with
  | none => [l]
  | some (a, b) => [a, b]

/-- `IETFParser.parse_draft_name`: split on the last hyphen; the trailing
segment is a revision number exactly when it is two digits.  The unpacking
`ValueError` on a hyphen-free string is caught and yields `(instr, None)`. -/
def parse_draft_name (instr : String) : String × Option String :=
  match splitLast '-' instr.data with
  | none => (instr, none)
  | some (dn, ls) =>
    if ls.all Char.isDigit = true ∧ ls.length = 2
    then (String.mk dn, some (String.mk ls))
    else (instr, none)

/-- `IETFParser.html_url`: `urlunsplit(["https", "tools.ietf.org",
"/".join(["html", doc_name]), '', ''])`; `urlunsplit` inserts the slash
between netloc and path. -/
def html_url (doc_name : String) : String :=
  "https://tools.ietf.org/" ++ "html/" ++ doc_name

/-- A `<meta>` tag in the document head: its `name` attribute and optional
`content` attribute. -/
structure MetaTag where
  name : String
  content : Option String
deriving DecidableEq

/-- The document `<head>`: its meta tags and the string of its `<title>` tag
(`none` when there is no title tag). -/
structure Head where
  metas : List MetaTag
  title : Option String
deriving DecidableEq

/-- A parsed HTML document, to the extent the IETF parser inspects it
(`none` head models a document without a `<head>`). -/
structure Doc where
  head : Option Head
deriving DecidableEq

/-- BeautifulSoup's `head.find("meta", attrs={"name": name})`:
the first meta tag with the given name. -/
def findMeta (h : Head) (name : String) : Option MetaTag :=
  h.metas.find? (fun m => m.name = name)

/-- The Python exceptions and exits the embedded code can produce. -/
inductive PyErr where
  | attributeError (msg : String)
  | keyError (k : String)
  | valueError (msgs : List String)
  | indexError
  | typeError (msg : String)
  | fetchError (msg : String)
  | betterUrl (u : String)
  | sysExit (msg : String)
deriving DecidableEq

/-- The `spec_data` dictionary a parser returns (the fields every parser
fills: `title`, `description`, `org`, `url`). -/
structure SpecData where
  title : String
  description : String
  org : String
  url : String
deriving DecidableEq

/-- `IETFParser.get_meta`: tries the names in sequence; a missing head
(`AttributeError`) or a missing tag (`TypeError` from `None['content']`) is
caught and moves on to the next name; a tag without a `content` attribute
raises an uncaught `KeyError`; a found content has each newline replaced by a
space. -/
def get_meta (spec : Doc) (names : List String) : Except PyErr (Option String) :=
  match names with
  | [] => .ok none
  | name :: rest =>
    match spec.head with
    | none => get_meta spec rest
    | some h =>
      match findMeta h name with
      | none => get_meta spec rest
      | some tag =>
        match tag.content with
        | none => .error (.keyError "content")
        | some c => .ok (some (replaceNL c))

/-- `spec.head.title.string`: `AttributeError` when the head or the title tag
is missing. -/
def headTitle (spec : Doc) : Except PyErr String :=
  match spec.head with
  | none => .error (.attributeError "NoneType object has no attribute title")
  | some h =>
    match h.title with
    | none => .error (.attributeError "NoneType object has no attribute string")
    | some t => .ok t

/-- Lift an `Option` produced by `clean_url` into the `IndexError` it models. -/
def ofClean (o : Option String) : Except PyErr String :=
  match o with
  | some u => .ok u
  | none => .error .indexError

/-- List indexing with Python `IndexError`. -/
def lget (l : List String) (i : Nat) : Except PyErr String :=
  match l[i]? with
  | some x => .ok x
  | none => .error .indexError

/-- `l[-1]` with Python `IndexError`. -/
def lgetLast (l : List String) : Except PyErr String :=
  match l.getLast? with
  | some x => .ok x
  | none => .error .indexError

/-- Lines 387–390 of `IETFParser.parse`: when the `DC.Identifier` value is an
`urn:ietf:rfc` identifier, redirect to the corresponding RFC html URL unless
the current URL already canonicalizes to it. -/
def rfc_check (idv : String) (url_string : String) : Except PyErr Unit := do
  if pyStartswith (pyLower idv) "urn:ietf:rfc" then
    let tail ← (match rsplit1 ':' idv.data with
      | [_, b] => Except.ok (String.mk b)
      | _ => Except.error PyErr.indexError)
    let cu ← ofClean (clean_url url_string)
    let cn ← ofClean (clean_url (html_url ("rfc" ++ tail)))
    if cu ≠ cn then throw (.betterUrl (html_url ("rfc" ++ tail)))

/-- Lines 413–419 of `IETFParser.parse`: the record extraction reached when no
redirect was raised.  `or`-fallbacks follow Python truthiness (an empty string
falls through). -/
def ietf_extract (spec : Doc) (url_string : String) : Except PyErr SpecData := do
  let t0 ← get_meta spec ["DC.Title"]
  let title ← (match t0 with
    | some t => if t ≠ "" then Except.ok t else headTitle spec
    | none => headTitle spec)
  let d0 ← get_meta spec ["description", "dcterms.abstract", "DC.Description.Abstract"]
  let descr := (match d0 with
    | some d => d
    | none => "")
  let u ← ofClean (clean_url url_string)
  return ⟨title, descr, "IETF", u⟩

/-- Lines 380–383 of `IETFParser.parse`: `url.path.split("/")` with a
trailing empty component popped. -/
def path_components (url_string : String) : List String :=
  let pcs0 := (pySplit '/' (urlsplitL url_string.data).path).map String.mk
  if pcs0.getLast? = some "" then pcs0.dropLast else pcs0

/-- `url.netloc.lower()` of the parsed URL. -/
def netlocLower (url_string : String) : String :=
  String.mk ((urlsplitL url_string.data).netloc.map lowerChar)

/-- `IETFParser.parse`.  The host dispatch, redirect raising and record
extraction of lines 379–419; `BetterUrl` and `FetchError` are error values. -/
def ietf_parse (spec : Doc) (url_string : String) : Except PyErr SpecData := do
  let netloc := netlocLower url_string
  let pcs := path_components url_string
  if netloc = "tools.ietf.org" then
    let p1 ← lget pcs 1
    if p1 = "html" then
      let identifier ← get_meta spec ["DC.Identifier"]
      let idv ← (match identifier with
        | some s => Except.ok s
        | none => Except.error (PyErr.attributeError "NoneType object has no attribute lower"))
      rfc_check idv url_string
      let lastc ← lgetLast pcs
      let dn := parse_draft_name lastc
      if (match dn.2 with | some s => s != "" | none => false) then
        throw (.betterUrl (html_url dn.1))
      ietf_extract spec url_string
    else if p1 = "id" ∨ p1 = "pdf" then
      let p2 ← lget pcs 2
      throw (.betterUrl (html_url p2))
    else
      throw (.fetchError "I don't think that's a specification.")
  else
    let wwwMatch ← (if netloc = "www.ietf.org" then do
      let p1 ← lget pcs 1
      pure (p1 == "id")
    else pure false)
    if wwwMatch then
      let p2 ← lget pcs 2
      let dn0 := (match rsplit1 '.' p2.data with
        | a :: _ => String.mk a
        | [] => p2)
      let dn := (parse_draft_name dn0).1
      throw (.betterUrl (html_url dn))
    else if netloc = "datatracker.ietf.org" then
      let p1 ← lget pcs 1
      if p1 = "doc" then
        let p2 ← lget pcs 2
        throw (.betterUrl (html_url p2))
      else
        throw (.fetchError "I don't think that's a specification.")
    else
      ietf_extract spec url_string

/-- Python truthiness of an optional string (`None` and `""` are falsy),
as tested by `if ed_url ...`, `elif this_url:` in `W3CParser.parse`. -/
def optTruthy (o : Option String) : Bool :=
  match o with
  | some s => s != ""
  | none => false

/-- `W3CParser.parse` (lines 325–353).  The BeautifulSoup extractions are
passed in as the values the source computes from the document: `refresh` is
the `content` attribute of a `meta[http-equiv="Refresh"]` tag when one is
selected, `this_url`, `latest_url` and `ed_url` are the `get_link` results
(already `clean_url`-canonicalized by `get_link`, or `None`), `h1str` is
`spec.h1.string` (`none` models the `AttributeError` of a missing `h1`), and
`abstract` is the cleaned sibling of the `abstract` element (`none` models its
absence).  The two fatal `sys.exit(1)` calls are the `sysExit` errors. -/
def w3c_parse (org : String) (refresh : Option String)
    (this_url latest_url ed_url : Option String)
    (h1str : Option String) (abstract : Option String)
    (url_string : String) : Except PyErr SpecData := do
  match refresh with
  | some content =>
    let part1 ← (match splitFirst ';' content.data with
      | some (_, after) => Except.ok after
      | none => Except.error PyErr.indexError)
    let target ← (match splitFirst '=' part1 with
      | some (_, t) => Except.ok t
      | none => Except.error PyErr.indexError)
    throw (.betterUrl (pyStrip (String.mk target)))
  | none =>
    if optTruthy ed_url ∧ ed_url ≠ this_url then
      throw (.betterUrl (ed_url.getD ""))
    else if optTruthy latest_url ∧ latest_url ≠ this_url then
      throw (.betterUrl (latest_url.getD ""))
    else
      let u ← (match this_url with
        | some t =>
          if t != "" then Except.ok t
          else ofClean (clean_url url_string)
        | none => ofClean (clean_url url_string))
      let title ← (match h1str with
        | some t => Except.ok t
        | none => Except.error (PyErr.sysExit "* Can't find the specification's title."))
      let descr ← (match abstract with
        | some d => Except.ok d
        | none => Except.error (PyErr.sysExit "* Can't find the specification's description."))
      return ⟨title, descr, org, u⟩

/-- A Python value as it appears in the activities JSON data. -/
inductive PyVal where
  | str (s : String)
  | int (n : Int)
  | bool (b : Bool)
  | list (l : List PyVal)
  | dict (d : List (String × PyVal))
  | none

/-- `v is None`. -/
def isNone : PyVal → Bool
  | .none => true
  | _ => false

mutual

/-- Python `==` on the modelled values (structural equality; the JSON data the
program handles compares strings and numbers of like type). -/
def beqPyVal : PyVal → PyVal → Bool
  | .str a, .str b => a == b
  | .int a, .int b => a == b
  | .bool a, .bool b => a == b
  | .list a, .list b => beqPyList a b
  | .dict a, .dict b => beqPyDict a b
  | .none, .none => true
  | _, _ => false

/-- Python `==` on lists of values. -/
def beqPyList : List PyVal → List PyVal → Bool
  | [], [] => true
  | a :: as, b :: bs => beqPyVal a b && beqPyList as bs
  | _, _ => false

/-- Python `==` on dicts of values (association-list model). -/
def beqPyDict : List (String × PyVal) → List (String × PyVal) → Bool
  | [], [] => true
  | (k, v) :: as, (k2, v2) :: bs => k == k2 && beqPyVal v v2 && beqPyDict as bs
  | _, _ => false

end

/-- Python's `str()` rendering, to the extent the error messages use it. -/
def pyStr : PyVal → String
  | .str s => s
  | .int n => toString n
  | .bool true => "True"
  | .bool false => "False"
  | .none => "None"
  | .list _ => "[...]"
  | .dict _ => "{...}"

/-- Python truthiness of a value. -/
def pyFalsy : PyVal → Bool
  | .none => true
  | .str "" => true
  | .int 0 => true
  | .bool false => true
  | .list [] => true
  | .dict [] => true
  | _ => false

/-- `dict.get(k)` on the association-list model of a Python dict. -/
def dictGet (d : List (String × PyVal)) (k : String) : Option PyVal :=
  (d.find? (fun kv => kv.1 = k)).map (fun kv => kv.2)

/-- `isinstance(v, str)` (`StringType`). -/
def isStr : PyVal → Bool
  | .str _ => true
  | _ => false

/-- `isinstance(v, int)`; Python's `bool` is a subclass of `int`. -/
def isInstInt : PyVal → Bool
  | .int _ => true
  | .bool _ => true
  | _ => false

/-- The value kinds appearing in `ActivitiesJson.expected_entry_items`:
`UrlType`, `StringType`, `int`, or a closed list of allowed strings. -/
inductive VType where
  | url
  | string
  | int
  | enum (vs : List String)
deriving DecidableEq

/-- `ActivitiesJson.expected_entry_items`: `(name, required?, type)`. -/
def expected_entry_items : List (String × Bool × VType) := [
  ("cui_name", false, .string),
  ("title", true, .string),
  ("description", true, .string),
  ("ciuName", false, .string),
  ("org", true, .enum ["W3C", "IETF", "Ecma", "Other"]),
  ("group", false, .string),
  ("url", true, .url),
  ("mozBugUrl", false, .url),
  ("mozPositionIssue", false, .int),
  ("mozPosition", true, .enum [
    "under consideration",
    "participating",
    "defer",
    "harmful"
  ]),
  ("mozPositionDetail", false, .string)
]

/-- The type check `validate_entry` applies to a present, non-`None` value. -/
def typeOk : VType → PyVal → Bool
  | .url, v => isStr v
  | .string, v => isStr v
  | .int, v => isInstInt v
  | .enum vs, v =>
    match v with
    | .str s => vs.contains s
    | _ => false

/-- Rendering of a schema type in an error message (`"%s" % value_type`). -/
def vtypeName : VType → String
  | .url => "UrlType"
  | .string => "<class 'str'>"
  | .int => "<class 'int'>"
  | .enum _ => "[...]"

/-- `", ".join(vs)` / `" ".join(vs)`. -/
def joinWith (sep : String) : List String → String
  | [] => ""
  | [x] => x
  | x :: xs => x ++ sep ++ joinWith sep xs

/-- The error list one schema item contributes in `validate_entry`'s loop
(the required-member check and the type dispatch, lines 134–156). -/
def checkItem (entry : List (String × PyVal)) (title : String) :
    String × Bool × VType → List String
  | (name, required, ty) =>
    let v := (dictGet entry name).getD PyVal.none
    if required && isNone v then
      [title ++ " doesn't have required member " ++ name]
    else if isNone v then
      []
    else
      match ty with
      | .url => if isStr v then [] else [title ++ "'s " ++ name ++ " isn't a URL string."]
      | .string =>
        if isStr v then []
        else [title ++ "'s " ++ name ++ " isn't a " ++ vtypeName .string]
      | .int =>
        if isInstInt v then []
        else [title ++ "'s " ++ name ++ " isn't a " ++ vtypeName .int]
      | .enum vs =>
        if typeOk (.enum vs) v then []
        else [title ++ "'s " ++ name ++ " isn't one of [" ++ joinWith ", " vs ++ "]"]

/-- `set(entry.keys()) - set(schema names)`, modelled as the key list filtered
to the unrecognised ones (emptiness agrees with the set difference). -/
def extra_items (entry : List (String × PyVal)) : List String :=
  (entry.map (fun kv => kv.1)).filter
    (fun k => !((expected_entry_items.map (fun t => t.1)).contains k))

/-- The unrecognised-members error appended on each loop iteration
(lines 157–160; note the source checks this inside the loop). -/
def extraErrors (entry : List (String × PyVal)) (title : String) : List String :=
  match extra_items entry with
  | [] => []
  | xs => [title ++ " includes unrecoginsed members: " ++ joinWith " " xs]

/-- `if not title: title = "Entry"` applied to the optional `title` argument
(Python falsiness: `None` and falsy values become `"Entry"`). -/
def resolve_title (title : Option PyVal) : String :=
  match title with
  | Option.none => "Entry"
  | some t => if pyFalsy t then "Entry" else pyStr t

/-- `ActivitiesJson.validate_entry`: the fold of the per-item check and the
(in-loop) unrecognised-members check over the schema. -/
def validate_entry (entry : List (String × PyVal)) (title : Option PyVal) :
    List String :=
  let t := resolve_title title
  expected_entry_items.foldl
    (fun errors item => errors ++ checkItem entry t item ++ extraErrors entry t)
    []

/-- The per-entry loop of `ActivitiesJson.validate` (lines 116–122): `i` is
the 1-based index; a non-dictionary entry is flagged, but the following
`entry.get("title", ...)` then raises an uncaught `AttributeError`. -/
def validate_go : Nat → List PyVal → List String → Except String (List String)
  | _, [], errors => .ok errors
  | i, e :: rest, errors =>
    let errors' :=
      match e with
      | .dict _ => errors
      | _ => errors ++ ["Entry " ++ toString i ++ " is not a dictionary."]
    match e with
    | .dict d =>
      let title : PyVal := (dictGet d "title").getD (.str ("entry " ++ toString i))
      validate_go (i + 1) rest (errors' ++ validate_entry d (some title))
    | _ => .error "AttributeError: object has no attribute get"

/-- `ActivitiesJson.validate`: a non-list is a single error; a list is
validated entry by entry. -/
def validate (data : PyVal) : Except String (List String) :=
  match data with
  | .list entries => validate_go 1 entries []
  | _ => .ok ["Top-level data structure is not a list."]

/-- Removal of one key from a record (the record "identical except that one
field is absent"). -/
def eraseKey (d : List (String × PyVal)) (k : String) : List (String × PyVal) :=
  d.filter (fun kv => kv.1 ≠ k)

/-- `entry[k]` subscripting with `KeyError` / `TypeError`. -/
def getItem (v : PyVal) (k : String) : Except PyErr PyVal :=
  match v with
  | .dict d =>
    match dictGet d k with
    | some x => .ok x
    | Option.none => .error (.keyError k)
  | _ => .error (.typeError "object is not subscriptable")

/-- `x.lower().strip()` on a value; `AttributeError` when it is not a
string. -/
def pyNormVal (v : PyVal) : Except PyErr String :=
  match v with
  | .str s => .ok (pyStrip (pyLower s))
  | _ => .error (.attributeError "object has no attribute lower")

/-- The title normalization `t.lower().strip()` used for duplicate
detection. -/
def normTitle (s : String) : String := pyStrip (pyLower s)

/-- `ActivitiesJson.entry_unique` (lines 99–105): raises `ValueError` with a
single-element message list on a normalized-title or exact-url duplicate. -/
def entry_unique (filename : String) (data : List PyVal) (entry : PyVal) :
    Except PyErr Unit := do
  let t ← getItem entry "title"
  let tn ← pyNormVal t
  let existing ← data.mapM (fun e => do
    let et ← getItem e "title"
    pyNormVal et)
  if tn ∈ existing then
    throw (.valueError [filename ++ " already contains " ++ pyStr t])
  let u ← getItem entry "url"
  let existingU ← data.mapM (fun e => getItem e "url")
  if existingU.any (fun e => beqPyVal u e) then
    throw (.valueError [filename ++ " already contains " ++ pyStr u])

/-- Helper for `collapse_ws`: `sp` records whether the previous character was
whitespace. -/
def collapseAux : List Char → Bool → List Char
  | [], _ => []
  | c :: rest, sp =>
    if isPySpace c then
      if sp then collapseAux rest true else ' ' :: collapseAux rest true
    else c :: collapseAux rest false

/-- Written from the claim's words (C4): whitespace and newlines collapsed to
single spaces. -/
def collapse_ws (s : String) : String := String.mk (collapseAux s.data false)

/-- Written from the claim's words (C4): the first meta tag found when trying
the names in order. -/
def first_meta (spec : Doc) (names : List String) : Option MetaTag :=
  match spec.head with
  | none => none
  | some h => names.findSome? (findMeta h)

/-- The meta tags of the document head (empty when there is no head). -/
def headMetas (spec : Doc) : List MetaTag :=
  match spec.head with
  | none => []
  | some h => h.metas

/-- The decidable hypothesis of C3: every required schema field is present
with a non-`None` value. -/
def requiredOkB (d : List (String × PyVal)) : Bool :=
  expected_entry_items.all
    (fun t => !t.2.1 || !isNone ((dictGet d t.1).getD PyVal.none))

/-- The decidable hypothesis of C3: every present, non-`None` field value has
the type its schema item demands. -/
def typesOkB (d : List (String × PyVal)) : Bool :=
  expected_entry_items.all (fun t =>
    match dictGet d t.1 with
    | some v => isNone v || typeOk t.2.2 v
    | Option.none => true)

/-- The decidable hypothesis of C3: every key of the record is a schema
field name. -/
def keysOkB (d : List (String × PyVal)) : Bool :=
  d.all (fun kv => (expected_entry_items.map (fun t => t.1)).contains kv.1)

/-- The decidable hypothesis of C7: the value is a dict with string-valued
`title` and `url` members. -/
def hasTitleUrl : PyVal → Bool
  | .dict d =>
    (match dictGet d "title" with
     | some (.str _) => true
     | _ => false) &&
    (match dictGet d "url" with
     | some (.str _) => true
     | _ => false)
  | _ => false

/-- The `title` string of a well-shaped entry (`""` outside C7's domain). -/
def titleStr (e : PyVal) : String :=
  match e with
  | .dict d =>
    match dictGet d "title" with
    | some (.str s) => s
    | _ => ""
  | _ => ""

/-- The `url` string of a well-shaped entry (`""` outside C7's domain). -/
def urlStr (e : PyVal) : String :=
  match e with
  | .dict d =>
    match dictGet d "url" with
    | some (.str s) => s
    | _ => ""
  | _ => ""

/-! ### Lemmas about the character-level helpers -/

theorem lowerChar_cases (c : Char) : lowerChar c = c ∨ (lowerChar c).isLower = true := by
  unfold lowerChar
  split
  all_goals first
    | (right; decide)
    | (left; rfl)

set_option linter.unusedTactic false in
theorem lowerChar_of_isLower {c : Char} (h : c.isLower = true) : lowerChar c = c := by
  unfold lowerChar
  split
  all_goals first
    | rfl
    | (subst_vars; exact absurd h (by decide))

theorem lowerChar_ne {c t : Char} (ht : t.isLower = false) (h : c ≠ t) :
    lowerChar c ≠ t := by
  intro hc
  rcases lowerChar_cases c with he | hl
  · rw [he] at hc; exact h hc
  · rw [hc] at hl; rw [hl] at ht; cases ht

theorem lowerChar_idem (c : Char) : lowerChar (lowerChar c) = lowerChar c := by
  rcases lowerChar_cases c with he | hl
  · rw [he]; exact he
  · exact lowerChar_of_isLower hl

theorem map_lowerChar_of_isLower {l : List Char} (h : ∀ c ∈ l, c.isLower = true) :
    l.map lowerChar = l := by
  induction l with
  | nil => rfl
  | cons x xs ih =>
    simp only [List.map_cons]
    rw [lowerChar_of_isLower (h x (by simp)), ih (fun c hc => h c (by simp [hc]))]

theorem map_lowerChar_idem (l : List Char) :
    (l.map lowerChar).map lowerChar = l.map lowerChar := by
  induction l with
  | nil => rfl
  | cons x xs ih => simp only [List.map_cons, lowerChar_idem, ih]

theorem splitFirst_eq_none {c : Char} {l : List Char} (h : c ∉ l) :
    splitFirst c l = none := by
  induction l with
  | nil => rfl
  | cons x xs ih =>
    have hx : ¬(x = c) := fun he => h (by simp [he])
    simp only [splitFirst, if_neg hx, ih (fun hm => h (by simp [hm]))]
    rfl

theorem splitFirst_append {c : Char} {a b : List Char} (h : c ∉ a) :
    splitFirst c (a ++ c :: b) = some (a, b) := by
  induction a with
  | nil => simp [splitFirst]
  | cons x xs ih =>
    have hx : ¬(x = c) := fun he => h (by simp [he])
    simp [splitFirst, if_neg hx, ih (fun hm => h (by simp [hm]))]

theorem takeWhile_append_all {f : Char → Bool} {a b : List Char}
    (h : ∀ x ∈ a, f x = true) :
    (a ++ b).takeWhile f = a ++ b.takeWhile f := by
  induction a with
  | nil => rfl
  | cons x xs ih =>
    simp [List.takeWhile_cons, h x (by simp), ih (fun y hy => h y (by simp [hy]))]

theorem dropWhile_append_all {f : Char → Bool} {a b : List Char}
    (h : ∀ x ∈ a, f x = true) :
    (a ++ b).dropWhile f = b.dropWhile f := by
  induction a with
  | nil => rfl
  | cons x xs ih =>
    simp [List.dropWhile_cons, h x (by simp), ih (fun y hy => h y (by simp [hy]))]

theorem notNetlocEnd_iff (c : Char) :
    notNetlocEnd c = true ↔ c ≠ '/' ∧ c ≠ '?' ∧ c ≠ '#' := by
  simp [notNetlocEnd, not_or, and_assoc]

theorem notNetlocEnd_lowerChar {c : Char} (h : notNetlocEnd c = true) :
    notNetlocEnd (lowerChar c) = true := by
  rw [notNetlocEnd_iff] at h ⊢
  exact ⟨lowerChar_ne (by decide) h.1, lowerChar_ne (by decide) h.2.1,
    lowerChar_ne (by decide) h.2.2⟩

/-! ### The shape of `urlsplit` on a well-formed absolute URL -/

theorem urlsplitL_mk (s n p : List Char)
    (hs : s ≠ []) (hsc : s.all schemeChar = true) (hsa : (s.headD ' ').isAlpha = true)
    (hscolon : ':' ∉ s)
    (hn : ∀ c ∈ n, notNetlocEnd c = true)
    (hp : p = [] ∨ p.head? = some '/')
    (hpq : '?' ∉ p) (hpf : '#' ∉ p) :
    urlsplitL (mkUrl s n p) = ⟨s.map lowerChar, n, p, [], []⟩ := by
  have hsplit : splitScheme (mkUrl s n p) = (s.map lowerChar, '/' :: '/' :: (n ++ p)) := by
    unfold splitScheme mkUrl
    rw [splitFirst_append hscolon]
    dsimp only
    rw [if_pos ⟨hs, hsc, hsa⟩]
  have hnet : splitNetloc ('/' :: '/' :: (n ++ p)) = (n, p) := by
    unfold splitNetloc
    dsimp only
    rw [if_pos ⟨rfl, rfl⟩]
    rcases hp with hp0 | hp1
    · subst hp0
      simp only [List.append_nil]
      rw [List.takeWhile_eq_self_iff.mpr (by simpa using hn)]
      rw [List.dropWhile_eq_nil_iff.mpr (by simpa using hn)]
    · cases p with
      | nil => cases hp1
      | cons x p' =>
        simp only [List.head?_cons, Option.some.injEq] at hp1
        subst hp1
        rw [takeWhile_append_all hn, dropWhile_append_all hn]
        simp [List.takeWhile_cons, List.dropWhile_cons, notNetlocEnd]
  have hfrag : splitFrag p = (p, []) := by
    unfold splitFrag
    rw [splitFirst_eq_none hpf]
  have hquery : splitQuery p = (p, []) := by
    unfold splitQuery
    rw [splitFirst_eq_none hpq]
  unfold urlsplitL
  rw [hsplit]
  simp only
  rw [hnet]
  simp only
  rw [hfrag]
  simp only
  rw [hquery]

theorem isLower_schemeChar {c : Char} (h : c.isLower = true) : schemeChar c = true := by
  simp [schemeChar, Char.isAlpha, h]

theorem head?_stripSlash {p : List Char} (hph : p.head? = some '/')
    (hq : stripSlash p ≠ []) : (stripSlash p).head? = some '/' := by
  by_cases hl : p.getLast? = some '/'
  · simp only [stripSlash, if_pos hl] at hq ⊢
    cases p with
    | nil => cases hph
    | cons x p' =>
      simp only [List.head?_cons, Option.some.injEq] at hph
      subst hph
      cases p' with
      | nil => simp at hq
      | cons y ys => simp
  · simp only [stripSlash, if_neg hl]
    exact hph

theorem mem_stripSlash {c : Char} {p : List Char} (h : c ∈ stripSlash p) : c ∈ p := by
  unfold stripSlash at h
  split at h
  · exact List.mem_of_mem_dropLast h
  · exact h

theorem isAlpha_lowerChar {c : Char} (h : c.isAlpha = true) :
    (lowerChar c).isAlpha = true := by
  rcases lowerChar_cases c with he | hl
  · rw [he]; exact h
  · simp [Char.isAlpha, hl]

theorem schemeChar_lowerChar {c : Char} (h : schemeChar c = true) :
    schemeChar (lowerChar c) = true := by
  rcases lowerChar_cases c with he | hl
  · rw [he]; exact h
  · have ha : (lowerChar c).isAlpha = true := by simp [Char.isAlpha, hl]
    simp [schemeChar, ha]

theorem cleanUrlL_mk (s n p : List Char)
    (hs : s ≠ []) (hsc : s.all schemeChar = true)
    (hsa : (s.headD ' ').isAlpha = true)
    (hn : ∀ c ∈ n, notNetlocEnd c = true)
    (hph : p.head? = some '/')
    (hpq : '?' ∉ p) (hpf : '#' ∉ p) :
    cleanUrlL (mkUrl s n p) =
      some (mkUrl (s.map lowerChar) (n.map lowerChar) (stripSlash p)) := by
  have hscolon : ':' ∉ s := fun hm => by
    have := List.all_eq_true.mp hsc ':' hm
    exact absurd this (by decide)
  have hpnil : p ≠ [] := by
    intro he; rw [he] at hph; cases hph
  unfold cleanUrlL
  rw [urlsplitL_mk s n p hs hsc hsa hscolon hn (Or.inr hph) hpq hpf]
  dsimp only
  cases hlast : p.getLast? with
  | none => exact absurd (List.getLast?_eq_none_iff.mp hlast) hpnil
  | some c =>
    dsimp only
    by_cases hc : c = '/'
    · subst hc
      rw [if_pos rfl]
      unfold stripSlash mkUrl
      rw [if_pos hlast]
    · rw [if_neg hc]
      unfold stripSlash mkUrl
      rw [if_neg (by rw [hlast]; simp [hc])]

/-- Claim C1, counterexample: the claim fails in two independent ways on URLs
with a non-empty path.  First, `clean_url` strips exactly one trailing slash
per application, so on `"https://example.com/foo//"` applying it twice keeps
stripping and `clean_url (clean_url u) ≠ clean_url u`, refuting idempotence.
Second, `urlsplit` lowercases the scheme, so on `"HTTP://Example.com/foo"`
the scheme is not preserved and the host is not the only lowercased
component. -/
theorem clean_url_not_idempotent :
    ((urlsplitL "https://example.com/foo//".data).path ≠ [] ∧
     clean_url "https://example.com/foo//" = some "https://example.com/foo/" ∧
     clean_url "https://example.com/foo/" = some "https://example.com/foo" ∧
     ("https://example.com/foo" : String) ≠ "https://example.com/foo/") ∧
    ((urlsplitL "HTTP://Example.com/foo".data).path ≠ [] ∧
     clean_url "HTTP://Example.com/foo" = some "http://example.com/foo" ∧
     ("http://example.com/foo" : String) ≠ "HTTP://example.com/foo") :=
  ⟨⟨by decide, rfl, rfl, by decide⟩, ⟨by decide, rfl, by decide⟩⟩

/-- Claim C1 (amended): for a URL `scheme://netloc/path` whose scheme is one
`urlsplit` accepts (scheme characters, starting with a letter) and whose
path, after removing one trailing slash, is still non-empty and does not end
in a slash, `clean_url` strips exactly one trailing slash, lowercases the
netloc and the scheme (the scheme via `urlsplit`, so it is not preserved
verbatim and the host is not the only lowercased component), preserves the
rest of the path, and is idempotent.  (The original claim fails when the
stripped path is empty or still ends in `/`, and on non-lowercase schemes:
see the counterexample.) -/
theorem clean_url_strips_and_idempotent (s n p : List Char)
    (hs : s ≠ []) (hsc : s.all schemeChar = true)
    (hsa : (s.headD ' ').isAlpha = true)
    (hn : ∀ c ∈ n, notNetlocEnd c = true)
    (hph : p.head? = some '/')
    (hpq : '?' ∉ p) (hpf : '#' ∉ p)
    (hq : stripSlash p ≠ []) (hq2 : (stripSlash p).getLast? ≠ some '/') :
    cleanUrlL (mkUrl s n p) =
      some (mkUrl (s.map lowerChar) (n.map lowerChar) (stripSlash p)) ∧
    cleanUrlL (mkUrl (s.map lowerChar) (n.map lowerChar) (stripSlash p)) =
      some (mkUrl (s.map lowerChar) (n.map lowerChar) (stripSlash p)) := by
  constructor
  · exact cleanUrlL_mk s n p hs hsc hsa hn hph hpq hpf
  · have hs1 : s.map lowerChar ≠ [] := by
      cases s with
      | nil => exact absurd rfl hs
      | cons x xs => simp
    have hsc1 : (s.map lowerChar).all schemeChar = true := by
      rw [List.all_eq_true]
      intro c hc
      rcases List.mem_map.mp hc with ⟨c0, hc0, he⟩
      rw [← he]
      exact schemeChar_lowerChar (List.all_eq_true.mp hsc c0 hc0)
    have hsa1 : ((s.map lowerChar).headD ' ').isAlpha = true := by
      cases s with
      | nil => exact absurd rfl hs
      | cons x xs =>
        simp only [List.map_cons, List.headD_cons] at hsa ⊢
        exact isAlpha_lowerChar hsa
    have hn2 : ∀ c ∈ n.map lowerChar, notNetlocEnd c = true := by
      intro c hc
      rcases List.mem_map.mp hc with ⟨c0, hc0, he⟩
      rw [← he]
      exact notNetlocEnd_lowerChar (hn c0 hc0)
    have hph2 : (stripSlash p).head? = some '/' := head?_stripSlash hph hq
    have hpq2 : '?' ∉ stripSlash p := fun hm => hpq (mem_stripSlash hm)
    have hpf2 : '#' ∉ stripSlash p := fun hm => hpf (mem_stripSlash hm)
    have h1 := cleanUrlL_mk (s.map lowerChar) (n.map lowerChar) (stripSlash p)
      hs1 hsc1 hsa1 hn2 hph2 hpq2 hpf2
    have hfix : stripSlash (stripSlash p) = stripSlash p := by
      conv in stripSlash (stripSlash p) => rw [stripSlash]
      rw [if_neg hq2]
    rw [h1, map_lowerChar_idem s, map_lowerChar_idem n, hfix]

/-- Claim C1 witness for the amended theorem: a concrete URL with an
uppercase scheme, a mixed-case host and one trailing slash; the cleaned form
has a lowercased scheme and host and the slash stripped, and cleaning again
changes nothing. -/
theorem clean_url_strips_and_idempotent_witness :
    cleanUrlL (mkUrl "HTTP".data "Example.COM".data "/Foo/".data) =
      some (mkUrl ("HTTP".data.map lowerChar) ("Example.COM".data.map lowerChar)
        (stripSlash "/Foo/".data)) ∧
    cleanUrlL (mkUrl ("HTTP".data.map lowerChar) ("Example.COM".data.map lowerChar)
        (stripSlash "/Foo/".data)) =
      some (mkUrl ("HTTP".data.map lowerChar) ("Example.COM".data.map lowerChar)
        (stripSlash "/Foo/".data)) :=
  clean_url_strips_and_idempotent "HTTP".data "Example.COM".data "/Foo/".data
    (by decide) (by decide) (by decide) (by decide) (by decide) (by decide)
    (by decide) (by decide) (by decide)

/-- Claim C9: when the URL's path component is empty, `clean_url` hits the
`path[-1]` `IndexError` (the `none` branch of the embedding) instead of
returning a canonicalized URL. -/
theorem clean_url_undefined_on_empty_path (u : String)
    (h : (urlsplitL u.data).path = []) : clean_url u = none := by
  simp [clean_url, cleanUrlL, h]

/-- Claim C9 witness: `"https://example.com"` has an empty path. -/
theorem clean_url_undefined_on_empty_path_witness :
    (urlsplitL "https://example.com".data).path = [] ∧
    clean_url "https://example.com" = none :=
  ⟨by decide, clean_url_undefined_on_empty_path "https://example.com" (by decide)⟩

/-! ### Draft-name parsing (C8) -/

theorem splitLast_append {c : Char} {a b : List Char} (h : c ∉ b) :
    splitLast c (a ++ c :: b) = some (a, b) := by
  unfold splitLast
  rw [List.reverse_append, List.reverse_cons, List.append_assoc]
  simp only [List.singleton_append]
  rw [splitFirst_append (by simpa using h)]
  simp

theorem splitLast_eq_none {c : Char} {l : List Char} (h : c ∉ l) :
    splitLast c l = none := by
  unfold splitLast
  rw [splitFirst_eq_none (by simpa using h)]

/-- Claim C8: `parse_draft_name` splits on the last hyphen and accepts the
trailing segment as a revision exactly when it is two digits; in particular
the three cited examples hold, a hyphen-free name has no revision, and for a
name `a-b` with `b` hyphen-free the result is `(a, b)` when `b` is two digits
and `(a-b, None)` otherwise. -/
theorem parse_draft_name_spec :
    parse_draft_name "draft-foo-07" = ("draft-foo", some "07") ∧
    parse_draft_name "draft-foo" = ("draft-foo", none) ∧
    parse_draft_name "draft-foo-7" = ("draft-foo-7", none) ∧
    (∀ s : String, '-' ∉ s.data → parse_draft_name s = (s, none)) ∧
    (∀ a b : List Char, '-' ∉ b →
      parse_draft_name (String.mk (a ++ '-' :: b)) =
        if b.all Char.isDigit = true ∧ b.length = 2
        then (String.mk a, some (String.mk b))
        else (String.mk (a ++ '-' :: b), none)) := by
  refine ⟨by decide, by decide, by decide, ?_, ?_⟩
  · intro s h
    unfold parse_draft_name
    rw [splitLast_eq_none h]
  · intro a b h
    unfold parse_draft_name
    rw [show (String.mk (a ++ '-' :: b)).data = a ++ '-' :: b from rfl]
    rw [splitLast_append h]

/-- Claim C8 witness: the general hyphen-split branch applied to
`"draft-bar" ++ "-" ++ "00"`. -/
theorem parse_draft_name_spec_witness :
    parse_draft_name (String.mk ("draft-bar".data ++ '-' :: "00".data)) =
      ("draft-bar", some "00") := by
  have h := parse_draft_name_spec.2.2.2.2 "draft-bar".data "00".data (by decide)
  rw [h]
  decide

/-! ### Whole-dataset validation (C2) -/

/-- Claim C2: the whole-dataset validator does NOT terminate normally on every
input: a top-level non-list does return a single error string, but a list
containing a non-dictionary entry (here the integer `42`) makes the source
append the "is not a dictionary" error and then call `entry.get(...)` on the
non-dict, raising an uncaught `AttributeError` instead of accumulating. -/
theorem validate_raises_on_non_dict_entry :
    validate (PyVal.int 3) = Except.ok ["Top-level data structure is not a list."] ∧
    validate (PyVal.list [PyVal.int 42]) =
      Except.error "AttributeError: object has no attribute get" :=
  ⟨rfl, rfl⟩

/-! ### Meta-tag lookup (C4) -/

/-- Claim C4, counterexample: `get_meta` only replaces each newline with one
space; it does not collapse whitespace runs to single spaces.  On content
`"a\n\nb"` it returns `"a  b"` (two spaces) where the claimed collapsing
would give `"a b"`. -/
theorem get_meta_no_collapse :
    get_meta ⟨some ⟨[⟨"x", some "a\n\nb"⟩], Option.none⟩⟩ ["x"] =
      Except.ok (some "a  b") ∧
    collapse_ws "a\n\nb" = "a b" ∧
    ("a  b" : String) ≠ "a b" :=
  ⟨rfl, rfl, by decide⟩

/-- Claim C4 (amended): on a document whose meta tags all carry a `content`
attribute, `get_meta` tries the candidate names in order and returns the
content of the first meta tag found (`None` when none is present), with each
newline inside the content replaced by a single space (whitespace runs are
not collapsed: see the counterexample). -/
theorem get_meta_first_found (spec : Doc) (names : List String)
    (h : ∀ m ∈ headMetas spec, m.content ≠ Option.none) :
    get_meta spec names =
      Except.ok (match first_meta spec names with
        | some tag => tag.content.map replaceNL
        | none => none) := by
  induction names with
  | nil =>
    cases hh : spec.head with
    | none => simp [get_meta, first_meta, hh]
    | some hd => simp [get_meta, first_meta, hh]
  | cons name rest ih =>
    cases hh : spec.head with
    | none =>
      show get_meta spec (name :: rest) = _
      unfold get_meta
      rw [hh]
      rw [ih]
      simp [first_meta, hh]
    | some hd =>
      show get_meta spec (name :: rest) = _
      unfold get_meta
      rw [hh]
      cases hm : findMeta hd name with
      | none =>
        rw [ih]
        simp only [first_meta, hh, List.findSome?_cons, hm]
      | some tag =>
        have hmem : tag ∈ hd.metas := by
          have := List.mem_of_find?_eq_some hm
          exact this
        have hc : tag.content ≠ Option.none := by
          have : tag ∈ headMetas spec := by
            unfold headMetas
            rw [hh]
            exact hmem
          exact h tag this
        cases hct : tag.content with
        | none => exact absurd hct hc
        | some c =>
          simp only [first_meta, hh, List.findSome?_cons, hm, hct, Option.map_some']

/-- Claim C4 witness: two candidate names, the first absent, the second
present. -/
theorem get_meta_first_found_witness :
    get_meta ⟨some ⟨[⟨"a", some "X"⟩, ⟨"b", some "Y"⟩], Option.none⟩⟩ ["z", "b"] =
      Except.ok (match first_meta
          ⟨some ⟨[⟨"a", some "X"⟩, ⟨"b", some "Y"⟩], Option.none⟩⟩ ["z", "b"] with
        | some tag => tag.content.map replaceNL
        | none => none) :=
  get_meta_first_found _ _ (by decide)

/-! ### W3C link preference order (C6) -/

/-- Claim C6: for a W3C-family document without a refresh-redirect meta, given
the extracted links (each a `get_link` result, hence never the empty string
when present): an Editor's-draft link differing from "This version" wins and
raises a redirect; else a Latest-version link differing from "This version"
raises a redirect; else a present "This version" link becomes the record's
url; else the canonicalized input URL does. -/
theorem w3c_parse_preference (org : String) (url_string : String) :
    (∀ t l e h1 ab, e ≠ "" → some e ≠ t →
      w3c_parse org Option.none t l (some e) h1 ab url_string =
        Except.error (PyErr.betterUrl e)) ∧
    (∀ t ed l h1 ab, (ed = Option.none ∨ ed = t) → l ≠ "" → some l ≠ t →
      w3c_parse org Option.none t (some l) ed h1 ab url_string =
        Except.error (PyErr.betterUrl l)) ∧
    (∀ ed lat tv ti de, (ed = Option.none ∨ ed = some tv) →
      (lat = Option.none ∨ lat = some tv) → tv ≠ "" →
      w3c_parse org Option.none (some tv) lat ed (some ti) (some de) url_string =
        Except.ok ⟨ti, de, org, tv⟩) ∧
    (∀ ti de cu, clean_url url_string = some cu →
      w3c_parse org Option.none Option.none Option.none Option.none
          (some ti) (some de) url_string =
        Except.ok ⟨ti, de, org, cu⟩) := by
  refine ⟨?_, ?_, ?_, ?_⟩
  · intro t l e h1 ab he hne
    unfold w3c_parse
    dsimp only
    rw [if_pos ⟨by simp [optTruthy, he], hne⟩]
    rfl
  · intro t ed l h1 ab hed hle hne
    unfold w3c_parse
    dsimp only
    rw [if_neg (by
      rcases hed with h0 | h0 <;> subst h0
      · simp [optTruthy]
      · simp)]
    rw [if_pos ⟨by simp [optTruthy, hle], hne⟩]
    rfl
  · intro ed lat tv ti de hed hlat htv
    unfold w3c_parse
    dsimp only
    rw [if_neg (by
      rcases hed with h0 | h0 <;> subst h0
      · simp [optTruthy]
      · simp)]
    rw [if_neg (by
      rcases hlat with h0 | h0 <;> subst h0
      · simp [optTruthy]
      · simp)]
    simp [bind, Except.bind, htv]
    rfl
  · intro ti de cu hcu
    unfold w3c_parse
    dsimp only
    rw [if_neg (by simp [optTruthy])]
    rw [if_neg (by simp [optTruthy])]
    simp [bind, Except.bind, ofClean, hcu]
    rfl

/-- Claim C6 witness: a document whose Editor's draft differs from "This
version" redirects to the Editor's draft. -/
theorem w3c_parse_preference_witness :
    w3c_parse "W3C" Option.none (some "https://www.w3.org/TR/x") Option.none
        (some "https://w3c.github.io/x") (some "Ti") (some "De")
        "https://www.w3.org/TR/x/" =
      Except.error (PyErr.betterUrl "https://w3c.github.io/x") :=
  (w3c_parse_preference "W3C" "https://www.w3.org/TR/x/").1
    (some "https://www.w3.org/TR/x") Option.none "https://w3c.github.io/x"
    (some "Ti") (some "De") (by decide) (by decide)

/-! ### IETF parser (C5, C10) -/

theorem isDigit_ne {c t : Char} (h : c.isDigit = true) (ht : t.isDigit = false) :
    c ≠ t := by
  intro he
  subst he
  rw [h] at ht
  cases ht

theorem splitAcc_no_sep {c : Char} {l : List Char} (h : c ∉ l) (acc : List Char) :
    splitAcc c l acc = [acc.reverse ++ l] := by
  induction l generalizing acc with
  | nil => simp [splitAcc]
  | cons x xs ih =>
    have hx : ¬(x = c) := fun he => h (by simp [he])
    rw [splitAcc, if_neg hx, ih (fun hm => h (by simp [hm]))]
    simp

theorem pySplit_html {tail : List Char} (h : '/' ∉ tail) :
    pySplit '/' ("/html/".data ++ tail) = [[], "html".data, tail] := by
  show splitAcc '/' ('/' :: 'h' :: 't' :: 'm' :: 'l' :: '/' :: tail) [] = _
  rw [splitAcc, if_pos rfl]
  rw [splitAcc, if_neg (by decide)]
  rw [splitAcc, if_neg (by decide)]
  rw [splitAcc, if_neg (by decide)]
  rw [splitAcc, if_neg (by decide)]
  rw [splitAcc, if_pos rfl]
  rw [splitAcc_no_sep h]
  rfl

theorem parse_draft_name_two_digits {name : List Char} {d1 d2 : Char}
    (h1 : d1.isDigit = true) (h2 : d2.isDigit = true) :
    parse_draft_name (String.mk (name ++ '-' :: [d1, d2])) =
      (String.mk name, some (String.mk [d1, d2])) := by
  unfold parse_draft_name
  rw [show (String.mk (name ++ '-' :: [d1, d2])).data = name ++ '-' :: [d1, d2] from rfl]
  have hm : '-' ∉ [d1, d2] := by
    intro hmem
    rcases List.mem_pair.mp hmem with he | he
    · exact isDigit_ne h1 (by decide) he.symm
    · exact isDigit_ne h2 (by decide) he.symm
  rw [splitLast_append hm]
  dsimp only
  rw [if_pos ⟨by simp [h1, h2], rfl⟩]

theorem get_meta_none_of_no_name {spec : Doc} {nm : String}
    (h : ∀ m ∈ headMetas spec, m.name ≠ nm) :
    get_meta spec [nm] = Except.ok Option.none := by
  cases hh : spec.head with
  | none => simp [get_meta, hh]
  | some hd =>
    have hfind : findMeta hd nm = Option.none := by
      unfold findMeta
      apply List.find?_eq_none.mpr
      intro m hm
      have : m.name ≠ nm := h m (by unfold headMetas; rw [hh]; exact hm)
      simp [this]
    simp [get_meta, hh, hfind]

/-- Claim C10: on a `tools.ietf.org` URL whose path starts with `html`, when
the head has no `DC.Identifier` meta tag, `get_meta` returns `None` and the
parser's `identifier.lower()` raises `AttributeError` (the error branch of
the embedding): no record and no fallthrough to draft-name handling. -/
theorem ietf_parse_crashes_without_identifier (spec : Doc) (u : String)
    (hhost : netlocLower u = "tools.ietf.org")
    (hp1 : (path_components u)[1]? = some "html")
    (hnometa : ∀ m ∈ headMetas spec, m.name ≠ "DC.Identifier") :
    ietf_parse spec u =
      Except.error (PyErr.attributeError "NoneType object has no attribute lower") := by
  have hgm := get_meta_none_of_no_name hnometa
  unfold ietf_parse
  rw [hhost]
  simp only [if_pos rfl, lget, hp1, hgm, bind, Except.bind]
  rfl

theorem mk_ne_empty {l : List Char} (h : l ≠ []) : String.mk l ≠ "" := by
  intro he
  exact h (congrArg String.data he)

/-- Claim C5: for a URL `https://tools.ietf.org/html/<name>-<NN>` with `NN`
exactly two digits, when the document's `DC.Identifier` value does not force
an RFC redirect (the `rfc_check` step passes), the parser raises a redirect
carrying the un-revisioned draft's html URL; and at the un-revisioned URL
`https://tools.ietf.org/html/draft-ietf-foo` the parser then produces a
record whose `url` is exactly that URL. -/
theorem ietf_parse_revision_redirect :
    (∀ (spec : Doc) (name : List Char) (d1 d2 : Char) (idv : String),
      (∀ c ∈ name, c ≠ '/' ∧ c ≠ '?' ∧ c ≠ '#') →
      d1.isDigit = true → d2.isDigit = true →
      get_meta spec ["DC.Identifier"] = Except.ok (some idv) →
      rfc_check idv (String.mk (mkUrl "https".data "tools.ietf.org".data
        ("/html/".data ++ (name ++ '-' :: [d1, d2])))) = Except.ok () →
      ietf_parse spec (String.mk (mkUrl "https".data "tools.ietf.org".data
        ("/html/".data ++ (name ++ '-' :: [d1, d2])))) =
        Except.error (PyErr.betterUrl (html_url (String.mk name)))) ∧
    (∀ (spec : Doc) (idv ti : String) (d0 : Option String),
      get_meta spec ["DC.Identifier"] = Except.ok (some idv) →
      rfc_check idv "https://tools.ietf.org/html/draft-ietf-foo" = Except.ok () →
      get_meta spec ["DC.Title"] = Except.ok (some ti) → ti ≠ "" →
      get_meta spec ["description", "dcterms.abstract", "DC.Description.Abstract"] =
        Except.ok d0 →
      ∃ rec, ietf_parse spec "https://tools.ietf.org/html/draft-ietf-foo" =
        Except.ok rec ∧ rec.url = "https://tools.ietf.org/html/draft-ietf-foo") := by
  constructor
  · intro spec name d1 d2 idv hn h1 h2 hid hrc
    set tail : List Char := name ++ '-' :: [d1, d2] with htail
    set u : String := String.mk (mkUrl "https".data "tools.ietf.org".data
      ("/html/".data ++ tail)) with hu
    have htail_ne : tail ≠ [] := by rw [htail]; simp
    have hnoslash : '/' ∉ tail := by
      rw [htail]
      intro hm
      rcases List.mem_append.mp hm with hm | hm
      · exact (hn _ hm).1 rfl
      · rcases List.mem_cons.mp hm with he | hm
        · cases he
        · rcases List.mem_pair.mp hm with he | he
          · exact isDigit_ne h1 (by decide) he.symm
          · exact isDigit_ne h2 (by decide) he.symm
    have hurl : urlsplitL u.data =
        ⟨"https".data.map lowerChar, "tools.ietf.org".data, "/html/".data ++ tail, [], []⟩ := by
      apply urlsplitL_mk
      · decide
      · decide
      · decide
      · decide
      · decide
      · exact Or.inr rfl
      · rw [htail]
        intro hm
        rcases List.mem_append.mp hm with hm | hm
        · revert hm; decide
        · rcases List.mem_append.mp hm with hm | hm
          · exact (hn _ hm).2.1 rfl
          · rcases List.mem_cons.mp hm with he | hm
            · cases he
            · rcases List.mem_pair.mp hm with he | he
              · exact isDigit_ne h1 (by decide) he.symm
              · exact isDigit_ne h2 (by decide) he.symm
      · rw [htail]
        intro hm
        rcases List.mem_append.mp hm with hm | hm
        · revert hm; decide
        · rcases List.mem_append.mp hm with hm | hm
          · exact (hn _ hm).2.2 rfl
          · rcases List.mem_cons.mp hm with he | hm
            · cases he
            · rcases List.mem_pair.mp hm with he | he
              · exact isDigit_ne h1 (by decide) he.symm
              · exact isDigit_ne h2 (by decide) he.symm
    have hnet : netlocLower u = "tools.ietf.org" := by
      unfold netlocLower
      rw [hurl]
      dsimp only
      decide
    have hpcs : path_components u = ["", "html", String.mk tail] := by
      unfold path_components
      rw [hurl]
      dsimp only
      rw [pySplit_html hnoslash]
      rw [List.map_cons, List.map_cons, List.map_cons, List.map_nil]
      rw [if_neg (by
        simp only [List.getLast?]
        intro hc
        exact mk_ne_empty htail_ne (by injection hc))]
    have hA : lget ["", "html", String.mk tail] 1 = Except.ok "html" := rfl
    have hB : lgetLast ["", "html", String.mk tail] = Except.ok (String.mk tail) := rfl
    have hpd : parse_draft_name (String.mk tail) =
        (String.mk name, some (String.mk [d1, d2])) := by
      rw [htail]
      exact parse_draft_name_two_digits h1 h2
    have hne : (String.mk [d1, d2] != "") = true :=
      bne_iff_ne.mpr (mk_ne_empty (by simp))
    unfold ietf_parse
    rw [hnet, hpcs]
    simp only [bind, Except.bind, hA, hB, hid, hrc, hpd, hne]
    rfl
  · intro spec idv ti d0 hid hrc ht hti hd
    cases d0 with
    | none =>
      refine ⟨⟨ti, "", "IETF", "https://tools.ietf.org/html/draft-ietf-foo"⟩, ?_, rfl⟩
      unfold ietf_parse ietf_extract
      rw [show netlocLower "https://tools.ietf.org/html/draft-ietf-foo" =
        "tools.ietf.org" from by decide]
      rw [show path_components "https://tools.ietf.org/html/draft-ietf-foo" =
        ["", "html", "draft-ietf-foo"] from by decide]
      simp only [bind, Except.bind, hid, hrc, ht, hd]
      rw [if_pos hti]
      rfl
    | some dsc =>
      refine ⟨⟨ti, dsc, "IETF", "https://tools.ietf.org/html/draft-ietf-foo"⟩, ?_, rfl⟩
      unfold ietf_parse ietf_extract
      rw [show netlocLower "https://tools.ietf.org/html/draft-ietf-foo" =
        "tools.ietf.org" from by decide]
      rw [show path_components "https://tools.ietf.org/html/draft-ietf-foo" =
        ["", "html", "draft-ietf-foo"] from by decide]
      simp only [bind, Except.bind, hid, hrc, ht, hd]
      rw [if_pos hti]
      rfl

/-- Claim C5 witness: `draft-ietf-foo-03` redirects to the un-revisioned
draft's html URL; at that URL a record with the same url is produced. -/
theorem ietf_parse_revision_redirect_witness :
    ietf_parse ⟨some ⟨[⟨"DC.Identifier", some "urn:ietf:id:draft-ietf-foo-03"⟩,
        ⟨"DC.Title", some "Foo Spec"⟩], some "Foo"⟩⟩
      (String.mk (mkUrl "https".data "tools.ietf.org".data
        ("/html/".data ++ ("draft-ietf-foo".data ++ '-' :: ['0', '3'])))) =
      Except.error (PyErr.betterUrl (html_url (String.mk "draft-ietf-foo".data))) ∧
    (∃ rec, ietf_parse ⟨some ⟨[⟨"DC.Identifier", some "urn:ietf:id:draft-ietf-foo-00"⟩,
        ⟨"DC.Title", some "Foo Spec"⟩], some "Foo"⟩⟩
      "https://tools.ietf.org/html/draft-ietf-foo" = Except.ok rec ∧
      rec.url = "https://tools.ietf.org/html/draft-ietf-foo") :=
  ⟨ietf_parse_revision_redirect.1 _ "draft-ietf-foo".data '0' '3'
      "urn:ietf:id:draft-ietf-foo-03" (by decide) (by decide) (by decide)
      (by decide) (by decide),
    ietf_parse_revision_redirect.2 _ "urn:ietf:id:draft-ietf-foo-00" "Foo Spec"
      Option.none (by decide) (by decide) (by decide) (by decide) (by decide)⟩

/-- Claim C10 witness: a head with a title but no `DC.Identifier` meta. -/
theorem ietf_parse_crashes_without_identifier_witness :
    ietf_parse ⟨some ⟨[⟨"DC.Title", some "T"⟩], some "T"⟩⟩
        "https://tools.ietf.org/html/rfc7230" =
      Except.error (PyErr.attributeError "NoneType object has no attribute lower") :=
  ietf_parse_crashes_without_identifier _ _ (by decide) (by decide) (by decide)

/-! ### Entry validation (C3) -/

theorem foldl_append_join {α : Type} (f : α → List String) (l : List α)
    (acc : List String) :
    l.foldl (fun errs t => errs ++ f t) acc = acc ++ (l.map f).flatten := by
  induction l generalizing acc with
  | nil => simp
  | cons t ts ih => simp [ih, List.append_assoc]

theorem validate_entry_eq_join (entry : List (String × PyVal)) (title : Option PyVal) :
    validate_entry entry title =
      (expected_entry_items.map (fun item =>
        checkItem entry (resolve_title title) item ++
          extraErrors entry (resolve_title title))).flatten := by
  unfold validate_entry
  dsimp only
  rw [show (fun (errors : List String) item =>
      errors ++ checkItem entry (resolve_title title) item ++
        extraErrors entry (resolve_title title)) =
    (fun errors item =>
      errors ++ (checkItem entry (resolve_title title) item ++
        extraErrors entry (resolve_title title))) from by
    funext errors item
    rw [List.append_assoc]]
  rw [foldl_append_join]
  rfl

theorem join_eq_nil {α : Type} {f : α → List String} {l : List α}
    (h : ∀ t ∈ l, f t = []) : (l.map f).flatten = [] := by
  induction l with
  | nil => rfl
  | cons t ts ih =>
    simp [h t (by simp), ih (fun x hx => h x (by simp [hx]))]

theorem join_eq_single {α β : Type} (key : α → β) {f : α → List String}
    {l : List α} (x : α) {e : List String}
    (hmem : x ∈ l) (hnd : (l.map key).Nodup)
    (hz : ∀ t ∈ l, key t ≠ key x → f t = []) (hx : f x = e) :
    (l.map f).flatten = e := by
  induction l with
  | nil => cases hmem
  | cons t0 rest ih =>
    rcases List.mem_cons.mp hmem with he | hm
    · subst he
      have hrest : ∀ t ∈ rest, f t = [] := by
        intro t ht
        apply hz t (by simp [ht])
        intro hk
        have : key x ∈ rest.map key := List.mem_map.mpr ⟨t, ht, hk⟩
        exact (List.nodup_cons.mp hnd).1 this
      rw [List.map_cons, List.flatten_cons, hx, join_eq_nil hrest, List.append_nil]
    · have hk0 : key t0 ≠ key x := by
        intro hk
        have : key x ∈ rest.map key := List.mem_map.mpr ⟨x, hm, rfl⟩
        rw [← hk] at this
        exact (List.nodup_cons.mp hnd).1 this
      rw [List.map_cons, List.flatten_cons, hz t0 (by simp) hk0, List.nil_append]
      exact ih hm (List.nodup_cons.mp hnd).2 (fun t ht hk => hz t (by simp [ht]) hk)

theorem extra_items_eq_nil {d : List (String × PyVal)} (h3 : keysOkB d = true) :
    extra_items d = [] := by
  unfold extra_items
  rw [List.filter_eq_nil_iff]
  intro k hk
  rcases List.mem_map.mp hk with ⟨kv, hkv, he⟩
  subst he
  have := (List.all_eq_true.mp h3) kv hkv
  simp only [this, Bool.not_true, Bool.false_eq_true, not_false_eq_true]

theorem extraErrors_eq_nil {d : List (String × PyVal)} (h3 : keysOkB d = true)
    (t : String) : extraErrors d t = [] := by
  unfold extraErrors
  rw [extra_items_eq_nil h3]

theorem keysOkB_eraseKey {d : List (String × PyVal)} (h3 : keysOkB d = true)
    (r : String) : keysOkB (eraseKey d r) = true := by
  rw [keysOkB, List.all_eq_true]
  intro kv hkv
  exact (List.all_eq_true.mp h3) kv (List.mem_filter.mp hkv).1

theorem dictGet_cons (k0 : String) (v0 : PyVal) (rest : List (String × PyVal))
    (k : String) :
    dictGet ((k0, v0) :: rest) k = if k0 = k then some v0 else dictGet rest k := by
  unfold dictGet
  rw [List.find?_cons]
  by_cases hk : k0 = k
  · simp [hk]
  · simp [hk]

theorem eraseKey_cons (k0 : String) (v0 : PyVal) (rest : List (String × PyVal))
    (r : String) :
    eraseKey ((k0, v0) :: rest) r =
      if k0 ≠ r then (k0, v0) :: eraseKey rest r else eraseKey rest r := by
  unfold eraseKey
  rw [List.filter_cons]
  by_cases hr : k0 ≠ r <;> simp [hr]

theorem dictGet_eraseKey_ne {d : List (String × PyVal)} {k r : String} (h : k ≠ r) :
    dictGet (eraseKey d r) k = dictGet d k := by
  induction d with
  | nil => rfl
  | cons kv rest ih =>
    obtain ⟨k0, v0⟩ := kv
    rw [eraseKey_cons]
    by_cases hr : k0 ≠ r
    · rw [if_pos hr, dictGet_cons, dictGet_cons]
      by_cases hk : k0 = k
      · simp [hk]
      · simp [hk, ih]
    · rw [if_neg hr, ih, dictGet_cons]
      push_neg at hr
      rw [if_neg (by rw [hr]; exact fun he => h he.symm)]

theorem dictGet_eraseKey_self (d : List (String × PyVal)) (r : String) :
    dictGet (eraseKey d r) r = Option.none := by
  unfold dictGet
  rw [List.find?_eq_none.mpr]
  · rfl
  · intro kv hkv
    unfold eraseKey at hkv
    have h2 := (List.mem_filter.mp hkv).2
    simp at h2 ⊢
    exact h2

theorem checkItem_eq_nil {d : List (String × PyVal)} {t : String}
    {item : String × Bool × VType}
    (hreq : item.2.1 = true → isNone ((dictGet d item.1).getD PyVal.none) = false)
    (hty : ∀ v, dictGet d item.1 = some v → isNone v = false →
      typeOk item.2.2 v = true) :
    checkItem d t item = [] := by
  obtain ⟨name, required, ty⟩ := item
  dsimp only at hreq hty
  unfold checkItem
  dsimp only
  cases hv : dictGet d name with
  | none =>
    cases hb : required with
    | true =>
      exfalso
      have hx := hreq hb
      rw [hv] at hx
      exact absurd hx (by decide)
    | false =>
      rw [if_neg (by decide)]
      rw [if_pos (by decide)]
  | some v =>
    simp only [Option.getD_some]
    cases hNone : isNone v with
    | true =>
      cases hb : required with
      | true =>
        exfalso
        have hx := hreq hb
        rw [hv] at hx
        simp only [Option.getD_some] at hx
        rw [hNone] at hx
        exact absurd hx (by decide)
      | false =>
        rw [if_neg (by decide)]
        rw [if_pos (by decide)]
    | false =>
      have hok := hty v hv hNone
      rw [if_neg (by simp)]
      rw [if_neg (by decide)]
      cases ty with
      | url =>
        dsimp only
        rw [if_pos (by simpa [typeOk] using hok)]
      | string =>
        dsimp only
        rw [if_pos (by simpa [typeOk] using hok)]
      | int =>
        dsimp only
        rw [if_pos (by simpa [typeOk] using hok)]
      | enum vs =>
        dsimp only
        rw [if_pos hok]

theorem checkItem_missing_required {d : List (String × PyVal)} {t r : String}
    {ty : VType} (hv : dictGet d r = Option.none) :
    checkItem d t (r, true, ty) = [t ++ " doesn't have required member " ++ r] := by
  unfold checkItem
  dsimp only
  rw [hv]
  rw [if_pos (by simp [isNone])]

/-- Claim C3: a record with every required schema field present, all present
values well-typed and no unrecognized fields validates to `[]`; and removing
exactly one required field from it makes `validate_entry` return exactly one
error, naming that field. -/
theorem validate_entry_complete (d : List (String × PyVal)) (title : Option PyVal)
    (h1 : requiredOkB d = true) (h2 : typesOkB d = true) (h3 : keysOkB d = true) :
    validate_entry d title = [] ∧
    (∀ r b ty, (r, b, ty) ∈ expected_entry_items → b = true →
      validate_entry (eraseKey d r) title =
        [resolve_title title ++ " doesn't have required member " ++ r]) := by
  have hitem : ∀ item ∈ expected_entry_items,
      checkItem d (resolve_title title) item = [] := by
    intro item hmem
    apply checkItem_eq_nil
    · intro hb
      have := (List.all_eq_true.mp h1) item hmem
      rw [hb] at this
      simpa using this
    · intro v hv hn
      have := (List.all_eq_true.mp h2) item hmem
      rw [hv] at this
      simp only [hn, Bool.false_or] at this
      exact this
  constructor
  · rw [validate_entry_eq_join]
    apply join_eq_nil
    intro item hmem
    rw [hitem item hmem, extraErrors_eq_nil h3, List.append_nil]
  · intro r b ty hmem hb
    subst hb
    have h3e := keysOkB_eraseKey h3 r
    have hitem2 : ∀ item ∈ expected_entry_items, item.1 ≠ r →
        checkItem (eraseKey d r) (resolve_title title) item = [] := by
      intro item hm hne
      apply checkItem_eq_nil
      · intro hbb
        have := (List.all_eq_true.mp h1) item hm
        rw [hbb] at this
        rw [dictGet_eraseKey_ne hne]
        simpa using this
      · intro v hv hn
        rw [dictGet_eraseKey_ne hne] at hv
        have := (List.all_eq_true.mp h2) item hm
        rw [hv] at this
        simp only [hn, Bool.false_or] at this
        exact this
    rw [validate_entry_eq_join]
    apply join_eq_single (fun item => item.1) (r, true, ty) hmem
      (by decide)
    · intro t ht hk
      rw [hitem2 t ht hk, extraErrors_eq_nil h3e, List.append_nil]
    · rw [checkItem_missing_required (dictGet_eraseKey_self d r),
        extraErrors_eq_nil h3e, List.append_nil]

/-- Claim C3 witness: a concrete record with all required fields, validated
clean; erasing `title` yields exactly the one error naming `title`. -/
theorem validate_entry_complete_witness :
    validate_entry [("title", PyVal.str "T"), ("description", PyVal.str "D"),
      ("org", PyVal.str "W3C"), ("url", PyVal.str "https://example.com/x"),
      ("mozPosition", PyVal.str "defer")] Option.none = [] ∧
    validate_entry (eraseKey [("title", PyVal.str "T"), ("description", PyVal.str "D"),
      ("org", PyVal.str "W3C"), ("url", PyVal.str "https://example.com/x"),
      ("mozPosition", PyVal.str "defer")] "title") Option.none =
      ["Entry doesn't have required member title"] := by
  have h := validate_entry_complete [("title", PyVal.str "T"),
    ("description", PyVal.str "D"), ("org", PyVal.str "W3C"),
    ("url", PyVal.str "https://example.com/x"), ("mozPosition", PyVal.str "defer")]
    Option.none (by decide) (by decide) (by decide)
  exact ⟨h.1, (h.2 "title" true .string (by decide) rfl).trans (by decide)⟩

/-! ### Duplicate detection (C7) -/

theorem getItem_title {e : PyVal} (h : hasTitleUrl e = true) :
    getItem e "title" = Except.ok (PyVal.str (titleStr e)) := by
  cases e with
  | dict d =>
    rw [hasTitleUrl] at h
    unfold getItem titleStr
    dsimp only
    cases hget : dictGet d "title" with
    | none => rw [hget] at h; simp at h
    | some v =>
      rw [hget] at h
      cases v with
      | str s => rfl
      | int n => simp at h
      | bool b => simp at h
      | list l => simp at h
      | dict d2 => simp at h
      | none => simp at h
  | str s => simp [hasTitleUrl] at h
  | int n => simp [hasTitleUrl] at h
  | bool b => simp [hasTitleUrl] at h
  | list l => simp [hasTitleUrl] at h
  | none => simp [hasTitleUrl] at h

theorem getItem_url {e : PyVal} (h : hasTitleUrl e = true) :
    getItem e "url" = Except.ok (PyVal.str (urlStr e)) := by
  cases e with
  | dict d =>
    rw [hasTitleUrl] at h
    unfold getItem urlStr
    dsimp only
    cases hget : dictGet d "url" with
    | none => rw [hget] at h; simp at h
    | some v =>
      rw [hget] at h
      cases v with
      | str s => rfl
      | int n => simp at h
      | bool b => simp at h
      | list l => simp at h
      | dict d2 => simp at h
      | none => simp at h
  | str s => simp [hasTitleUrl] at h
  | int n => simp [hasTitleUrl] at h
  | bool b => simp [hasTitleUrl] at h
  | list l => simp [hasTitleUrl] at h
  | none => simp [hasTitleUrl] at h

theorem mapM_titles {data : List PyVal} (hd : ∀ e ∈ data, hasTitleUrl e = true) :
    (data.mapM (fun e => do
      let et ← getItem e "title"
      pyNormVal et)) =
      Except.ok (data.map (fun e => normTitle (titleStr e))) := by
  induction data with
  | nil => rfl
  | cons e rest ih =>
    rw [List.mapM_cons]
    rw [getItem_title (hd e (by simp))]
    rw [ih (fun x hx => hd x (by simp [hx]))]
    rfl

theorem mapM_urls {data : List PyVal} (hd : ∀ e ∈ data, hasTitleUrl e = true) :
    (data.mapM (fun e => getItem e "url")) =
      Except.ok (data.map (fun e => PyVal.str (urlStr e))) := by
  induction data with
  | nil => rfl
  | cons e rest ih =>
    rw [List.mapM_cons]
    rw [getItem_url (hd e (by simp))]
    rw [ih (fun x hx => hd x (by simp [hx]))]
    rfl

theorem anyBeq_iff {u0 : String} {data : List PyVal} :
    ((data.map (fun e => PyVal.str (urlStr e))).any
        (fun e => beqPyVal (PyVal.str u0) e) = true) ↔
      u0 ∈ data.map (fun e => urlStr e) := by
  rw [List.any_map, List.any_eq_true]
  simp only [Function.comp, beqPyVal, List.mem_map]
  constructor
  · rintro ⟨e, he, hb⟩
    exact ⟨e, he, (beq_iff_eq.mp hb).symm⟩
  · rintro ⟨e, he, hb⟩
    exact ⟨e, he, beq_iff_eq.mpr hb.symm⟩

/-- Claim C7: on a dataset whose entries (and candidate) carry string `title`
and `url` members, `entry_unique` returns normally exactly when neither the
normalized (lowercased, stripped) title nor the exact url collides with an
existing entry; on a collision it raises a `ValueError` carrying a
single-element message list.  The embedding is pure, so the dataset itself is
untouched. -/
theorem entry_unique_spec (fn : String) (data : List PyVal) (entry : PyVal)
    (he : hasTitleUrl entry = true) (hd : ∀ e ∈ data, hasTitleUrl e = true) :
    (entry_unique fn data entry = Except.ok () ↔
      (normTitle (titleStr entry) ∉ data.map (fun e => normTitle (titleStr e)) ∧
       urlStr entry ∉ data.map (fun e => urlStr e))) ∧
    ((normTitle (titleStr entry) ∈ data.map (fun e => normTitle (titleStr e)) ∨
      urlStr entry ∈ data.map (fun e => urlStr e)) →
      ∃ m, entry_unique fn data entry = Except.error (PyErr.valueError [m])) := by
  have hnorm : pyNormVal (PyVal.str (titleStr entry)) =
      Except.ok (normTitle (titleStr entry)) := rfl
  by_cases h1 : normTitle (titleStr entry) ∈ data.map (fun e => normTitle (titleStr e))
  · have hE : entry_unique fn data entry =
        Except.error (PyErr.valueError [fn ++ " already contains " ++ titleStr entry]) := by
      unfold entry_unique
      rw [mapM_titles hd, mapM_urls hd, getItem_title he, getItem_url he]
      simp only [bind, Except.bind, pure, Except.pure, hnorm]
      rw [if_pos h1]
      rfl
    rw [hE]
    refine ⟨⟨fun h => Except.noConfusion h, fun hc => absurd h1 hc.1⟩, fun _ => ⟨_, rfl⟩⟩
  · by_cases h2 : urlStr entry ∈ data.map (fun e => urlStr e)
    · have hE : entry_unique fn data entry =
          Except.error (PyErr.valueError [fn ++ " already contains " ++ urlStr entry]) := by
        unfold entry_unique
        rw [mapM_titles hd, mapM_urls hd, getItem_title he, getItem_url he]
        simp only [bind, Except.bind, pure, Except.pure, hnorm]
        rw [if_neg h1]
        rw [if_pos (anyBeq_iff.mpr h2)]
        rfl
      rw [hE]
      refine ⟨⟨fun h => Except.noConfusion h, fun hc => absurd h2 hc.2⟩, fun _ => ⟨_, rfl⟩⟩
    · have hE : entry_unique fn data entry = Except.ok () := by
        unfold entry_unique
        rw [mapM_titles hd, mapM_urls hd, getItem_title he, getItem_url he]
        simp only [bind, Except.bind, pure, Except.pure, hnorm]
        rw [if_neg h1]
        rw [if_neg (fun hc => h2 (anyBeq_iff.mp hc))]
      rw [hE]
      refine ⟨⟨fun _ => ⟨h1, h2⟩, fun _ => rfl⟩, fun hor => ?_⟩
      rcases hor with hor | hor
      · exact absurd hor h1
      · exact absurd hor h2

/-- Claim C7 witness: a candidate whose normalized title and url are both
fresh is accepted. -/
theorem entry_unique_spec_witness :
    entry_unique "activities.json"
      [PyVal.dict [("title", PyVal.str "  My Spec "), ("url", PyVal.str "https://a/x")]]
      (PyVal.dict [("title", PyVal.str "other"), ("url", PyVal.str "https://a/y")]) =
      Except.ok () :=
  (entry_unique_spec "activities.json"
    [PyVal.dict [("title", PyVal.str "  My Spec "), ("url", PyVal.str "https://a/x")]]
    (PyVal.dict [("title", PyVal.str "other"), ("url", PyVal.str "https://a/y")])
    (by decide) (by decide)).1.mpr ⟨by decide, by decide⟩

end Activities
